import Mathlib

set_option linter.unusedVariables false

/-!
Shallow embedding of the json2splunk-rs core pipeline, translated from the
repository sources:

* `src/splunk_utils/http_event_collector.rs` — batching delivery client
  (`HttpEventCollector::batch_event`, `flush_batch`, `post_payload`);
* `src/utils/vrl.rs` — cached VRL script compilation (`compile_vrl_chain`);
* `src/utils/utils.rs` — the streaming lossy UTF-8 decoder
  (`LossyUtf8Reader::read`) and the epoch unit heuristic (`epoch_from_number`).

Network responses are modelled by an oracle `responses : Nat -> Resp` giving
the outcome of each HTTP POST attempt; machine floating point (`f64`) is
modelled by exact rationals; Rust byte strings keep their UTF-8 byte length
via `String.utf8ByteSize`.
-/

/-! ## Delivery client: `src/splunk_utils/http_event_collector.rs` -/

/-- Outcome of one HTTP POST attempt, as observed by `post_payload`:
either a transport-level failure (`send()` returns `Err`) or an HTTP
response with a status code and a body. -/
inductive Resp
  | transportErr
  | http (status : Nat) (body : String)
deriving DecidableEq

/-- How the attempt loop of `post_payload` ended: a 2xx success, giving up
on the batch (terminal non-2xx or a 503 on the final attempt), or a
transport-level error propagated by `?`. -/
inductive PostOutcome
  | success
  | gaveUp
  | transportFail
deriving DecidableEq

/-- Observable result of `post_payload`: how many requests were sent, the
backoff sleeps (in milliseconds, in order) and the final outcome. -/
structure PostResult where
  requests : Nat
  backoffs : List Nat
  outcome : PostOutcome
deriving DecidableEq

/-- The `for attempt in 0..max_attempts` loop of `post_payload`
(http_event_collector.rs lines 113-191), written with explicit fuel
(`remaining` = number of loop iterations still available, so the Rust guard
`attempt + 1 < max_attempts` becomes `0 < remaining` in the successor case).
A 2xx response returns success; a 503 with iterations to spare sleeps
`500 * (attempt + 1)` ms and retries; any other non-2xx (or a final 503)
gives up on the batch; a transport error ends the loop immediately. -/
def postLoop (responses : Nat → Resp) : Nat → Nat → PostResult
  | _, 0 => ⟨0, [], .gaveUp⟩
  | attempt, remaining + 1 =>
    match responses attempt with
    | .transportErr => ⟨1, [], .transportFail⟩
    | .http st _ =>
      if 200 ≤ st ∧ st ≤ 299 then ⟨1, [], .success⟩
      else if st = 503 ∧ 0 < remaining then
        let r := postLoop responses (attempt + 1) remaining
        ⟨r.requests + 1, 500 * (attempt + 1) :: r.backoffs, r.outcome⟩
      else ⟨1, [], .gaveUp⟩

/-- `let max_attempts = 5;` in `post_payload`. -/
def max_attempts : Nat := 5

/-- `HttpEventCollector::post_payload`: run the bounded attempt loop.
The payload itself does not influence control flow (it is only sent and,
on a terminal error, logged), so only the response oracle matters. -/
def post_payload (responses : Nat → Resp) (payload : String) : PostResult :=
  postLoop responses 0 max_attempts

/-- The mutable batching state of `HttpEventCollector`: the buffered
serialized events, the running byte counter and the byte budget. -/
structure HecState where
  batch_events : List String
  current_byte_length : Nat
  max_byte_length : Nat
deriving DecidableEq

/-- Sum of the serialized byte lengths of a list of buffered entries. -/
def byteLen (l : List String) : Nat := (l.map String.utf8ByteSize).sum

/-- `HttpEventCollector::flush_batch` (lines 238-253): an empty buffer
returns immediately; otherwise the joined payload is posted (any network
error is only logged) and the buffer and byte counter are cleared
unconditionally.  The second component records the posted payload and the
result of `post_payload`, or `none` when no request was made. -/
def flush_batch (responses : Nat → Resp) (s : HecState) :
    HecState × Option (String × PostResult) :=
  if s.batch_events.isEmpty then (s, none)
  else
    let payload := String.join s.batch_events
    ({ s with batch_events := [], current_byte_length := 0 },
      some (payload, post_payload responses payload))

/-- The buffer-accounting tail of `HttpEventCollector::batch_event`
(lines 226-235), taking the already-serialized `payload_str`: if adding
its byte length would exceed the budget, the existing batch is flushed
first; then the length is added to the counter and the entry pushed. -/
def batch_event (responses : Nat → Resp) (s : HecState) (payload_str : String) :
    HecState × Option (String × PostResult) :=
  let len := payload_str.utf8ByteSize
  let fl :=
    if s.current_byte_length + len > s.max_byte_length then
      flush_batch responses s
    else (s, none)
  ({ fl.1 with
      current_byte_length := fl.1.current_byte_length + len,
      batch_events := fl.1.batch_events ++ [payload_str] }, fl.2)

/-- Client states reachable from a fresh `HttpEventCollector::new` state
(empty buffer, zero counter, any configured byte budget) by any sequence
of `batch_event` and `flush_batch` calls under any network behaviour. -/
inductive HecReachable : HecState → Prop
  | init (max : Nat) : HecReachable ⟨[], 0, max⟩
  | step_batch {s : HecState} (responses : Nat → Resp) (payload_str : String) :
      HecReachable s → HecReachable (batch_event responses s payload_str).1
  | step_flush {s : HecState} (responses : Nat → Resp) :
      HecReachable s → HecReachable (flush_batch responses s).1

theorem byteLen_nil : byteLen [] = 0 := rfl

theorem byteLen_append (l₁ l₂ : List String) :
    byteLen (l₁ ++ l₂) = byteLen l₁ + byteLen l₂ := by
  simp [byteLen]

theorem flush_batch_fst (responses : Nat → Resp) (s : HecState) :
    (flush_batch responses s).1 =
      if s.batch_events.isEmpty then s
      else { s with batch_events := [], current_byte_length := 0 } := by
  by_cases h : s.batch_events.isEmpty <;> simp [flush_batch, h]

/-- The accounting invariant holds on every reachable client state. -/
theorem hec_reachable_inv {s : HecState} (h : HecReachable s) :
    s.current_byte_length = byteLen s.batch_events := by
  induction h with
  | init max => rfl
  | step_batch responses payload_str h ih =>
    rename_i s
    by_cases hc :
        s.current_byte_length + payload_str.utf8ByteSize > s.max_byte_length
    · by_cases he : s.batch_events.isEmpty
      · rw [List.isEmpty_iff] at he
        simp [batch_event, flush_batch, hc, he, byteLen, ih.symm.trans, he ▸ ih]
      · simp [batch_event, flush_batch, hc, he, byteLen]
    · simp only [batch_event, if_neg hc]
      simp [byteLen_append, byteLen, ih]
  | step_flush responses h ih =>
    rename_i s
    rw [flush_batch_fst]
    by_cases he : s.batch_events.isEmpty <;> simp [he, ih, byteLen]

theorem batch_event_no_flush (responses : Nat → Resp) (s : HecState) (p : String)
    (h : s.current_byte_length + p.utf8ByteSize ≤ s.max_byte_length) :
    batch_event responses s p =
      ({ s with
          current_byte_length := s.current_byte_length + p.utf8ByteSize,
          batch_events := s.batch_events ++ [p] }, none) := by
  simp only [batch_event, if_neg (not_lt.mpr h)]

/-- Repeated queuing: fold `batch_event` over a list of serialized records. -/
def batchFold (responses : Nat → Resp) (s : HecState) (ps : List String) : HecState :=
  ps.foldl (fun t p => (batch_event responses t p).1) s

theorem byteLen_cons (p : String) (ps : List String) :
    byteLen (p :: ps) = p.utf8ByteSize + byteLen ps := by
  simp [byteLen]

theorem batchFold_no_flush (responses : Nat → Resp) :
    ∀ (ps : List String) (s : HecState),
      s.current_byte_length + byteLen ps ≤ s.max_byte_length →
      batchFold responses s ps =
        { s with
            batch_events := s.batch_events ++ ps,
            current_byte_length := s.current_byte_length + byteLen ps }
  | [], s, h => by simp [batchFold, byteLen]
  | p :: ps, s, h => by
    rw [byteLen_cons] at h
    have hp : s.current_byte_length + p.utf8ByteSize ≤ s.max_byte_length := by omega
    have hstep := batch_event_no_flush responses s p hp
    have htail := batchFold_no_flush responses ps
      { s with
          current_byte_length := s.current_byte_length + p.utf8ByteSize,
          batch_events := s.batch_events ++ [p] }
      (by simp; omega)
    simp only [batchFold, List.foldl_cons] at *
    rw [show (batch_event responses s p).1 =
        ({ s with
            current_byte_length := s.current_byte_length + p.utf8ByteSize,
            batch_events := s.batch_events ++ [p] } : HecState) from by rw [hstep]]
    rw [htail]
    simp [byteLen_cons]
    omega

/-- C1: on every delivery client state reachable by any sequence of
`batch_event` and `flush_batch` calls, `current_byte_length` equals the sum
of the byte lengths of the serialized entries buffered in `batch_events`;
and after queuing N records from a fresh client with no intervening flush
(their total size within the byte budget, so no implicit flush fires
either), the accumulator equals the sum of the serialized lengths of those
N records, which are exactly the buffered entries. -/
theorem C1_batch_accounting :
    (∀ s : HecState, HecReachable s →
        s.current_byte_length = byteLen s.batch_events) ∧
    (∀ (responses : Nat → Resp) (max : Nat) (ps : List String),
        byteLen ps ≤ max →
        (batchFold responses ⟨[], 0, max⟩ ps).batch_events = ps ∧
        (batchFold responses ⟨[], 0, max⟩ ps).current_byte_length = byteLen ps) := by
  refine ⟨fun s h => hec_reachable_inv h, fun responses max ps h => ?_⟩
  rw [batchFold_no_flush responses ps ⟨[], 0, max⟩ (by simpa using h)]
  simp

theorem C1_batch_accounting_witness :
    (batchFold (fun _ => Resp.http 200 "") ⟨[], 0, 100000⟩
        ["abc", "de"]).batch_events = ["abc", "de"] ∧
    (batchFold (fun _ => Resp.http 200 "") ⟨[], 0, 100000⟩
        ["abc", "de"]).current_byte_length = byteLen ["abc", "de"] ∧
    (⟨["abc"], 3, 100000⟩ : HecState).current_byte_length = byteLen ["abc"] := by
  have hr : HecReachable ⟨["abc"], 3, 100000⟩ := by
    have h := HecReachable.step_batch
      (fun _ => Resp.http 200 "") "abc" (HecReachable.init 100000)
    rwa [show (batch_event (fun _ => Resp.http 200 "") ⟨[], 0, 100000⟩ "abc").1
        = (⟨["abc"], 3, 100000⟩ : HecState) from by decide] at h
  exact ⟨(C1_batch_accounting.2 _ 100000 _ (by decide)).1,
    (C1_batch_accounting.2 _ 100000 _ (by decide)).2,
    C1_batch_accounting.1 _ hr⟩

/-- C2: every `flush_batch` call on a reachable client state leaves the
batch buffer empty and the byte accumulator at zero, for every possible
network behaviour (2xx, terminal non-2xx, 503 exhausting the retries, or a
transport-level failure — the response oracle is universally quantified). -/
theorem C2_flush_clears (responses : Nat → Resp) (s : HecState)
    (h : HecReachable s) :
    (flush_batch responses s).1.batch_events = [] ∧
    (flush_batch responses s).1.current_byte_length = 0 := by
  rw [flush_batch_fst]
  by_cases he : s.batch_events.isEmpty
  · have hinv := hec_reachable_inv h
    have he' : s.batch_events = [] := List.isEmpty_iff.mp he
    simp [he, he', he' ▸ hinv, byteLen]
  · simp [he]

theorem C2_flush_clears_witness :
    (flush_batch (fun _ => Resp.http 400 "bad")
        (batch_event (fun _ => Resp.http 200 "") ⟨[], 0, 100000⟩ "x").1).1.batch_events
      = [] ∧
    (flush_batch (fun _ => Resp.http 400 "bad")
        (batch_event (fun _ => Resp.http 200 "") ⟨[], 0, 100000⟩ "x").1).1.current_byte_length
      = 0 :=
  C2_flush_clears _ _
    (HecReachable.step_batch (fun _ => Resp.http 200 "") "x" (HecReachable.init 100000))

/-- C4: a record that would push the buffer over the byte budget first
triggers a flush of the existing buffer (sending exactly the old batch)
and then starts a fresh buffer containing only the new record; an in-budget
record is appended with no flush; a record whose serialized size alone
exceeds the budget still ends up as the sole content of its batch; and the
queued record is always buffered whole, never split. -/
theorem C4_over_budget (responses : Nat → Resp) (s : HecState) (p : String)
    (h : HecReachable s) :
    (s.current_byte_length + p.utf8ByteSize > s.max_byte_length →
      (batch_event responses s p).1.batch_events = [p] ∧
      (batch_event responses s p).1.current_byte_length = p.utf8ByteSize ∧
      (s.batch_events ≠ [] →
        (batch_event responses s p).2 =
          some (String.join s.batch_events,
            post_payload responses (String.join s.batch_events)))) ∧
    (s.current_byte_length + p.utf8ByteSize ≤ s.max_byte_length →
      (batch_event responses s p).1.batch_events = s.batch_events ++ [p] ∧
      (batch_event responses s p).1.current_byte_length
        = s.current_byte_length + p.utf8ByteSize ∧
      (batch_event responses s p).2 = none) ∧
    (s.max_byte_length < p.utf8ByteSize →
      (batch_event responses s p).1.batch_events = [p]) ∧
    p ∈ (batch_event responses s p).1.batch_events := by
  have hinv := hec_reachable_inv h
  have hmain : s.current_byte_length + p.utf8ByteSize > s.max_byte_length →
      (batch_event responses s p).1.batch_events = [p] ∧
      (batch_event responses s p).1.current_byte_length = p.utf8ByteSize ∧
      (s.batch_events ≠ [] →
        (batch_event responses s p).2 =
          some (String.join s.batch_events,
            post_payload responses (String.join s.batch_events))) := by
    intro hc
    by_cases he : s.batch_events.isEmpty
    · have he' : s.batch_events = [] := List.isEmpty_iff.mp he
      have hz : s.current_byte_length = 0 := by simp [hinv, he', byteLen]
      simp [batch_event, flush_batch, hc, he, he', hz]
    · have he' : s.batch_events ≠ [] := by
        intro hcontra; rw [hcontra] at he; exact he rfl
      simp [batch_event, flush_batch, hc, he, he']
  refine ⟨hmain, fun hc => ?_, fun hc => ?_, ?_⟩
  · rw [batch_event_no_flush responses s p hc]
    simp
  · exact (hmain (by omega)).1
  · by_cases hc : s.current_byte_length + p.utf8ByteSize > s.max_byte_length
    · rw [(hmain hc).1]; simp
    · rw [batch_event_no_flush responses s p (by omega)]; simp

theorem C4_over_budget_witness :
    (batch_event (fun _ => Resp.http 200 "") ⟨["aaaa"], 4, 6⟩ "bbb").1.batch_events
      = ["bbb"] ∧
    (batch_event (fun _ => Resp.http 200 "") ⟨["aaaa"], 4, 6⟩ "bbb").1.current_byte_length
      = 3 := by
  have hr : HecReachable ⟨["aaaa"], 4, 6⟩ := by
    have h := HecReachable.step_batch
      (fun _ => Resp.http 200 "") "aaaa" (HecReachable.init 6)
    rwa [show (batch_event (fun _ => Resp.http 200 "") ⟨[], 0, 6⟩ "aaaa").1
        = (⟨["aaaa"], 4, 6⟩ : HecState) from by decide] at h
  have h4 := (C4_over_budget (fun _ => Resp.http 200 "") ⟨["aaaa"], 4, 6⟩ "bbb" hr).1
    (by decide)
  exact ⟨h4.1, h4.2.1.trans (by decide)⟩

/-- C10: calling `flush_batch` when the batch buffer is empty is a complete
no-op: no HTTP request is issued (the trace component is `none`) and the
entire client state, every field included, is returned unchanged. -/
theorem C10_flush_empty_noop (responses : Nat → Resp) (s : HecState)
    (h : s.batch_events = []) :
    flush_batch responses s = (s, none) := by
  simp [flush_batch, h]

theorem C10_flush_empty_noop_witness :
    flush_batch (fun _ => Resp.http 200 "") ⟨[], 0, 100000⟩
      = ((⟨[], 0, 100000⟩ : HecState), none) :=
  C10_flush_empty_noop _ _ rfl

theorem postLoop_requests_le (responses : Nat → Resp) :
    ∀ (remaining attempt : Nat),
      (postLoop responses attempt remaining).requests ≤ remaining
  | 0, attempt => by simp [postLoop]
  | remaining + 1, attempt => by
    unfold postLoop
    cases hresp : responses attempt with
    | transportErr => simp
    | http st b =>
      by_cases h1 : 200 ≤ st ∧ st ≤ 299
      · simp [h1]
      · by_cases h2 : st = 503 ∧ 0 < remaining
        · have := postLoop_requests_le responses remaining (attempt + 1)
          simp [h1, h2]
          omega
        · simp [h1, h2]

/-- C3: a flush performs at most 5 HTTP POST attempts.  A 2xx on the first
attempt ends the loop successfully after one request and no backoff; a
transport-level failure ends it immediately; any non-2xx status other than
503 ends it after one request with the batch abandoned; five consecutive
503s send exactly 5 requests with backoffs 500, 1000, 1500, 2000 ms (no
sleep after the final attempt) and abandon the batch; and the response
sequence 503, 503, 2xx sends exactly 3 requests with backoffs 500 ms and
1000 ms and the flush succeeds. -/
theorem C3_retry_policy :
    (∀ (responses : Nat → Resp) (payload : String),
        (post_payload responses payload).requests ≤ 5) ∧
    (∀ (responses : Nat → Resp) (payload : String) (st : Nat) (b : String),
        responses 0 = Resp.http st b → 200 ≤ st → st ≤ 299 →
        post_payload responses payload = ⟨1, [], .success⟩) ∧
    (∀ (responses : Nat → Resp) (payload : String),
        responses 0 = Resp.transportErr →
        post_payload responses payload = ⟨1, [], .transportFail⟩) ∧
    (∀ (responses : Nat → Resp) (payload : String) (st : Nat) (b : String),
        responses 0 = Resp.http st b → ¬(200 ≤ st ∧ st ≤ 299) → st ≠ 503 →
        post_payload responses payload = ⟨1, [], .gaveUp⟩) ∧
    (∀ (responses : Nat → Resp) (payload : String) (b0 b1 b2 b3 b4 : String),
        responses 0 = Resp.http 503 b0 → responses 1 = Resp.http 503 b1 →
        responses 2 = Resp.http 503 b2 → responses 3 = Resp.http 503 b3 →
        responses 4 = Resp.http 503 b4 →
        post_payload responses payload = ⟨5, [500, 1000, 1500, 2000], .gaveUp⟩) ∧
    (∀ (responses : Nat → Resp) (payload : String) (b0 b1 b2 : String) (st : Nat),
        responses 0 = Resp.http 503 b0 → responses 1 = Resp.http 503 b1 →
        responses 2 = Resp.http st b2 → 200 ≤ st → st ≤ 299 →
        post_payload responses payload = ⟨3, [500, 1000], .success⟩) := by
  refine ⟨?_, ?_, ?_, ?_, ?_, ?_⟩
  · intro responses payload
    simpa [post_payload, max_attempts] using postLoop_requests_le responses 5 0
  · intro responses payload st b h0 hlo hhi
    simp [post_payload, max_attempts, postLoop, h0, hlo, hhi]
  · intro responses payload h0
    simp [post_payload, max_attempts, postLoop, h0]
  · intro responses payload st b h0 h2xx h503
    simp [post_payload, max_attempts, postLoop, h0, h2xx, h503]
  · intro responses payload b0 b1 b2 b3 b4 h0 h1 h2 h3 h4
    simp [post_payload, max_attempts, postLoop, h0, h1, h2, h3, h4]
  · intro responses payload b0 b1 b2 st h0 h1 h2 hlo hhi
    have h2xx : 200 ≤ st ∧ st ≤ 299 := ⟨hlo, hhi⟩
    simp [post_payload, max_attempts, postLoop, h0, h1, h2, h2xx]

theorem C3_retry_policy_witness :
    post_payload
        (fun n => if n = 0 then Resp.http 503 "busy"
          else if n = 1 then Resp.http 503 "busy" else Resp.http 200 "ok")
        "payload"
      = ⟨3, [500, 1000], .success⟩ :=
  C3_retry_policy.2.2.2.2.2
    (fun n => if n = 0 then Resp.http 503 "busy"
      else if n = 1 then Resp.http 503 "busy" else Resp.http 200 "ok")
    "payload" "busy" "busy" "ok" 200 rfl rfl rfl (by decide) (by decide)

/-! ## Cached script compilation: `src/utils/vrl.rs` -/

/-- Association-list lookup, modelling `HashMap::get` keyed by path
(and, later, `serde_json::Map` key lookup). -/
def alistGet {α : Type} : List (String × α) → String → Option α
  | [], _ => none
  | (k', v) :: rest, k => if k' = k then some v else alistGet rest k

/-- Association-list insert-or-overwrite, modelling `HashMap::insert`
(and, later, `serde_json::Map` key assignment). -/
def alistSet {α : Type} : List (String × α) → String → α → List (String × α)
  | [], k, v => [(k, v)]
  | (k', v') :: rest, k, v =>
    if k' = k then (k, v) :: rest else (k', v') :: alistSet rest k v

/-- `PathBuf::join` on the model's string paths: an absolute component
replaces the base, otherwise it is appended below the base. -/
def pathJoin (base p : String) : String :=
  if p.startsWith "/" then p else base ++ "/" ++ p

/-- Path resolution of `compile_vrl_chain`: with a base directory the
script reference is joined under it, otherwise it is used as given. -/
def resolvePath (vrl_dir : Option String) (p : String) : String :=
  match vrl_dir with
  | some base => pathJoin base p
  | none => p

/-- External capabilities used by `compile_vrl_chain`: the file system
(`std::fs::read_to_string`, `none` = I/O error) and the VRL compiler
(`none` = compile diagnostics).  `Prog` abstracts the opaque compiled
`vrl::compiler::Program`. -/
structure VrlEnv (Prog : Type) where
  fs : String → Option String
  compile : String → Option Prog

/-- Result of one `compile_vrl_chain` call: the returned chain of
(program, source-or-placeholder) pairs, the cache after the call, and the
traces of file reads attempted and sources compiled, in order. -/
structure ChainResult (Prog : Type) where
  out : List (Prog × String)
  cache : List (String × Prog)
  reads : List String
  compiles : List String

/-- The per-path loop of `compile_vrl_chain` (vrl.rs lines 41-87): resolve
the path; on a cache hit push the cached program paired with the *given*
path string (the source text is not cached; a placeholder is returned) and
do no I/O; on a miss read the file (an unreadable file is logged and
skipped), compile it (diagnostics are logged and the script skipped), and
on success insert the program into the cache and return it with its source
text. -/
def compileVrlChainGo {Prog : Type} (env : VrlEnv Prog) (vrl_dir : Option String) :
    List String → List (String × Prog) → ChainResult Prog
  | [], cache => ⟨[], cache, [], []⟩
  | p :: rest, cache =>
    let path := resolvePath vrl_dir p
    match alistGet cache path with
    | some prog =>
      let r := compileVrlChainGo env vrl_dir rest cache
      ⟨(prog, p) :: r.out, r.cache, r.reads, r.compiles⟩
    | none =>
      match env.fs path with
      | none =>
        let r := compileVrlChainGo env vrl_dir rest cache
        ⟨r.out, r.cache, path :: r.reads, r.compiles⟩
      | some source =>
        match env.compile source with
        | some prog =>
          let r := compileVrlChainGo env vrl_dir rest (alistSet cache path prog)
          ⟨(prog, source) :: r.out, r.cache, path :: r.reads, source :: r.compiles⟩
        | none =>
          let r := compileVrlChainGo env vrl_dir rest cache
          ⟨r.out, r.cache, path :: r.reads, source :: r.compiles⟩

/-- `compile_vrl_chain`, threading the process-wide cache explicitly: an
empty script list returns immediately without touching the cache. -/
def compile_vrl_chain {Prog : Type} (env : VrlEnv Prog) (vrl_dir : Option String)
    (normalize_paths : List String) (cache : List (String × Prog)) : ChainResult Prog :=
  if normalize_paths.isEmpty then ⟨[], cache, [], []⟩
  else compileVrlChainGo env vrl_dir normalize_paths cache

/-- C5: compiling the same resolved script path twice performs the file
read and the compilation only once.  A first successful compilation (from
an empty cache) reads and compiles the file exactly once, returns the
program with its source text, and inserts the program into the cache keyed
by the resolved path; any later call for the same resolved path against a
cache holding that program performs no read and no compilation and returns
the cached program (with the path string in place of the source text, which
only the first caller receives); and listing the same path twice in one
call also reads and compiles only once. -/
theorem C5_compile_cache {Prog : Type} (env : VrlEnv Prog) (vrl_dir : Option String)
    (p src : String) (prog : Prog)
    (hread : env.fs (resolvePath vrl_dir p) = some src)
    (hcomp : env.compile src = some prog) :
    (compile_vrl_chain env vrl_dir [p] []).out = [(prog, src)] ∧
    (compile_vrl_chain env vrl_dir [p] []).reads = [resolvePath vrl_dir p] ∧
    (compile_vrl_chain env vrl_dir [p] []).compiles = [src] ∧
    alistGet (compile_vrl_chain env vrl_dir [p] []).cache (resolvePath vrl_dir p)
      = some prog ∧
    (∀ cache : List (String × Prog),
      alistGet cache (resolvePath vrl_dir p) = some prog →
      (compile_vrl_chain env vrl_dir [p] cache).out = [(prog, p)] ∧
      (compile_vrl_chain env vrl_dir [p] cache).reads = [] ∧
      (compile_vrl_chain env vrl_dir [p] cache).compiles = []) ∧
    (compile_vrl_chain env vrl_dir [p, p] []).reads = [resolvePath vrl_dir p] ∧
    (compile_vrl_chain env vrl_dir [p, p] []).compiles = [src] := by
  refine ⟨?_, ?_, ?_, ?_, fun cache hcache => ?_, ?_, ?_⟩ <;>
    simp [compile_vrl_chain, compileVrlChainGo, hread, hcomp, alistGet, alistSet, *]

/-- A concrete compile environment for the C5 witness: every file reads as
the source text ". = 1" and every source compiles to the program `7`. -/
def natVrlEnv : VrlEnv Nat :=
  ⟨fun _ => some ". = 1", fun _ => some 7⟩

theorem C5_compile_cache_witness :
    (compile_vrl_chain natVrlEnv none ["a.vrl"] []).out = [(7, ". = 1")] ∧
    (compile_vrl_chain natVrlEnv none ["a.vrl"]
        (compile_vrl_chain natVrlEnv none ["a.vrl"] []).cache).reads = [] ∧
    (compile_vrl_chain natVrlEnv none ["a.vrl", "a.vrl"] []).reads = ["a.vrl"] := by
  have h := C5_compile_cache natVrlEnv none "a.vrl" ". = 1" 7 rfl rfl
  exact ⟨h.1, (h.2.2.2.2.1 _ h.2.2.2.1).2.1, h.2.2.2.2.2.1⟩

/-! ## Streaming lossy UTF-8 decoder: `src/utils/utils.rs` -/

/-- The Unicode replacement character emitted by `String::from_utf8_lossy`
for each invalid maximal subpart. -/
def replacementChar : Char := Char.ofNat 0xFFFD

/-- Is `b` a UTF-8 continuation byte (`0x80..=0xBF`)? -/
def isCont (b : Nat) : Bool := 0x80 ≤ b && b ≤ 0xBF

/-- One step of Rust's lossy UTF-8 decoding: given the lead byte `b` and
the remaining bytes, produce the decoded character (the scalar value for a
valid sequence, `U+FFFD` for an invalid maximal subpart) and the bytes not
yet consumed.  The second-byte ranges for `0xE0/0xED/0xF0/0xF4` match
core's UTF-8 validation, so valid sequences never decode to surrogates,
overlong forms or out-of-range values; on an invalid byte only the valid
prefix of the sequence is consumed, and a truncated sequence at end of
input is consumed as one replacement character. -/
def utf8Step (b : Nat) (rest : List Nat) : Char × List Nat :=
  if b < 0x80 then (Char.ofNat b, rest)
  else if b < 0xC2 then (replacementChar, rest)
  else if b ≤ 0xDF then
    match rest with
    | [] => (replacementChar, [])
    | b1 :: rest1 =>
      if isCont b1 then (Char.ofNat ((b - 0xC0) * 0x40 + (b1 - 0x80)), rest1)
      else (replacementChar, b1 :: rest1)
  else if b ≤ 0xEF then
    let lo := if b = 0xE0 then 0xA0 else 0x80
    let hi := if b = 0xED then 0x9F else 0xBF
    match rest with
    | [] => (replacementChar, [])
    | b1 :: rest1 =>
      if lo ≤ b1 && b1 ≤ hi then
        match rest1 with
        | [] => (replacementChar, [])
        | b2 :: rest2 =>
          if isCont b2 then
            (Char.ofNat ((b - 0xE0) * 0x1000 + (b1 - 0x80) * 0x40 + (b2 - 0x80)),
              rest2)
          else (replacementChar, b2 :: rest2)
      else (replacementChar, b1 :: rest1)
  else if b ≤ 0xF4 then
    let lo := if b = 0xF0 then 0x90 else 0x80
    let hi := if b = 0xF4 then 0x8F else 0xBF
    match rest with
    | [] => (replacementChar, [])
    | b1 :: rest1 =>
      if lo ≤ b1 && b1 ≤ hi then
        match rest1 with
        | [] => (replacementChar, [])
        | b2 :: rest2 =>
          if isCont b2 then
            match rest2 with
            | [] => (replacementChar, [])
            | b3 :: rest3 =>
              if isCont b3 then
                (Char.ofNat ((b - 0xF0) * 0x40000 + (b1 - 0x80) * 0x1000 +
                    (b2 - 0x80) * 0x40 + (b3 - 0x80)), rest3)
              else (replacementChar, b3 :: rest3)
          else (replacementChar, b2 :: rest2)
      else (replacementChar, b1 :: rest1)
  else (replacementChar, rest)

/-- Lossy decoding loop with explicit fuel; each step consumes at least the
lead byte, so fuel equal to the input length runs the loop to completion. -/
def utf8DecodeLossyGo : Nat → List Nat → List Char
  | 0, _ => []
  | _, [] => []
  | fuel + 1, b :: rest =>
    let s := utf8Step b rest
    s.1 :: utf8DecodeLossyGo fuel s.2

/-- `String::from_utf8_lossy` on a byte chunk, as a character list. -/
def utf8DecodeLossy (l : List Nat) : List Char := utf8DecodeLossyGo l.length l

/-- The `s.retain(|c| c != BOM && c != NUL)` pass of `LossyUtf8Reader::read`. -/
def stripBomNul (cs : List Char) : List Char :=
  cs.filter fun c => c != '\uFEFF' && c != '\u0000'

/-- UTF-8 encoding of one scalar value (`str::as_bytes` on one character). -/
def encodeChar (c : Char) : List Nat :=
  let n := c.toNat
  if n < 0x80 then [n]
  else if n < 0x800 then [0xC0 + n / 0x40, 0x80 + n % 0x40]
  else if n < 0x10000 then
    [0xE0 + n / 0x1000, 0x80 + (n / 0x40) % 0x40, 0x80 + n % 0x40]
  else
    [0xF0 + n / 0x40000, 0x80 + (n / 0x1000) % 0x40, 0x80 + (n / 0x40) % 0x40,
      0x80 + n % 0x40]

/-- UTF-8 encoding of a character list (`String::as_bytes`). -/
def utf8Encode (cs : List Char) : List Nat := (cs.map encodeChar).flatten

/-- What one inner chunk contributes to `out_buf`: lossy-decode, strip BOM
and NUL characters, re-encode as UTF-8 bytes. -/
def processChunk (chunk : List Nat) : List Nat :=
  utf8Encode (stripBomNul (utf8DecodeLossy chunk))

/-- State of a `LossyUtf8Reader`: the chunks the inner reader will return
on successive `read` calls (each at most the 8 KiB `in_buf`; an empty list
is end of stream), the decoded leftover buffer and the cursor into it. -/
structure LossyUtf8Reader where
  source : List (List Nat)
  out_buf : List Nat
  out_pos : Nat
deriving DecidableEq

/-- `LossyUtf8Reader::read` (utils.rs lines 36-67) with an output buffer of
size `outLen`: serve leftover decoded bytes first; otherwise pull the next
chunk from the inner reader (returning a 0-byte read at end of stream),
decode/strip/re-encode it into `out_buf` and serve its first bytes.
Returns the bytes written and the successor state. -/
def LossyUtf8Reader.read (r : LossyUtf8Reader) (outLen : Nat) :
    List Nat × LossyUtf8Reader :=
  if r.out_pos < r.out_buf.length then
    let toCopy := min (r.out_buf.length - r.out_pos) outLen
    ((r.out_buf.drop r.out_pos).take toCopy, { r with out_pos := r.out_pos + toCopy })
  else
    match r.source with
    | [] => ([], r)
    | chunk :: restChunks =>
      let ob := processChunk chunk
      let toCopy := min ob.length outLen
      (ob.take toCopy, { source := restChunks, out_buf := ob, out_pos := toCopy })

/-- Run a sequence of `read` calls with the given output-buffer sizes,
returning the concatenation of all bytes produced and the final state. -/
def readMany : LossyUtf8Reader → List Nat → List Nat × LossyUtf8Reader
  | r, [] => ([], r)
  | r, sz :: rest =>
    let step := r.read sz
    let tail := readMany step.2 rest
    (step.1 ++ tail.1, tail.2)

/-- Every byte the reader can still produce: the unserved part of
`out_buf` followed by the processed remaining chunks. -/
def fullStream (r : LossyUtf8Reader) : List Nat :=
  r.out_buf.drop r.out_pos ++ (r.source.map processChunk).flatten

theorem read_fullStream (r : LossyUtf8Reader) (sz : Nat) :
    (r.read sz).1 ++ fullStream (r.read sz).2 = fullStream r := by
  unfold LossyUtf8Reader.read
  by_cases h : r.out_pos < r.out_buf.length
  · simp only [if_pos h, fullStream]
    rw [← List.append_assoc, List.drop_take_append_drop]
  · simp only [if_neg h]
    cases hs : r.source with
    | nil => simp [fullStream, hs]
    | cons chunk restChunks =>
      simp only [fullStream, hs, List.map_cons, List.flatten_cons]
      rw [List.drop_eq_nil_of_le (Nat.le_of_not_lt h), List.nil_append,
        ← List.append_assoc, List.take_append_drop]

theorem readMany_fullStream (sizes : List Nat) :
    ∀ r : LossyUtf8Reader,
      (readMany r sizes).1 ++ fullStream (readMany r sizes).2 = fullStream r := by
  induction sizes with
  | nil => intro r; simp [readMany]
  | cons sz rest ih =>
    intro r
    simp only [readMany, List.append_assoc]
    rw [ih (r.read sz).2, read_fullStream]

theorem utf8Encode_append (cs ds : List Char) :
    utf8Encode (cs ++ ds) = utf8Encode cs ++ utf8Encode ds := by
  simp [utf8Encode]

theorem utf8Encode_flatten (ls : List (List Char)) :
    utf8Encode ls.flatten = (ls.map utf8Encode).flatten := by
  induction ls with
  | nil => rfl
  | cons l ls ih => simp [utf8Encode_append, ih]

theorem stripBomNul_mem {cs : List Char} {c : Char} (h : c ∈ stripBomNul cs) :
    c ≠ '\uFEFF' ∧ c ≠ '\u0000' := by
  have := List.of_mem_filter h
  constructor <;> intro hc <;> subst hc <;> simp at this

theorem encodeChar_ne_zero {c : Char} (h : c ≠ '\u0000') :
    ∀ b ∈ encodeChar c, b ≠ 0 := by
  intro b hb
  have hn : c.toNat ≠ 0 := by
    intro h0
    apply h
    apply Char.ext
    apply UInt32.ext
    simpa using h0
  unfold encodeChar at hb
  by_cases h1 : c.toNat < 0x80
  · simp [h1] at hb
    omega
  · by_cases h2 : c.toNat < 0x800
    · simp [h1, h2] at hb
      omega
    · by_cases h3 : c.toNat < 0x10000
      · simp [h1, h2, h3] at hb
        omega
      · simp [h1, h2, h3] at hb
        omega

/-- C7: for any input byte stream delivered in any chunking by the inner
reader, and any sequence of `read` calls with arbitrary output-buffer sizes
that drains the reader, the concatenation of all bytes produced is exactly
the UTF-8 encoding of a character sequence containing no byte-order mark
(`U+FEFF`) and no NUL (`U+0000`) — in particular it is valid UTF-8 and
contains no zero byte. -/
theorem C7_decoder_output (chunks : List (List Nat)) (sizes : List Nat)
    (hdrain : fullStream (readMany ⟨chunks, [], 0⟩ sizes).2 = []) :
    (readMany ⟨chunks, [], 0⟩ sizes).1
        = utf8Encode ((chunks.map fun ch => stripBomNul (utf8DecodeLossy ch)).flatten) ∧
    (∀ c ∈ (chunks.map fun ch => stripBomNul (utf8DecodeLossy ch)).flatten,
        c ≠ '\uFEFF' ∧ c ≠ '\u0000') ∧
    (∀ b ∈ (readMany ⟨chunks, [], 0⟩ sizes).1, b ≠ 0) := by
  have hout : (readMany ⟨chunks, [], 0⟩ sizes).1 = fullStream ⟨chunks, [], 0⟩ := by
    have h := readMany_fullStream sizes ⟨chunks, [], 0⟩
    rwa [hdrain, List.append_nil] at h
  have hstream : fullStream ⟨chunks, [], 0⟩
      = utf8Encode ((chunks.map fun ch => stripBomNul (utf8DecodeLossy ch)).flatten) := by
    simp only [fullStream, List.drop_nil, List.nil_append]
    rw [utf8Encode_flatten, List.map_map]
    rfl
  have hmem : ∀ c ∈ (chunks.map fun ch => stripBomNul (utf8DecodeLossy ch)).flatten,
      c ≠ '\uFEFF' ∧ c ≠ '\u0000' := by
    intro c hc
    rcases List.mem_flatten.mp hc with ⟨l, hl, hcl⟩
    rcases List.mem_map.mp hl with ⟨ch, _, rfl⟩
    exact stripBomNul_mem hcl
  refine ⟨hout.trans hstream, hmem, ?_⟩
  intro b hb
  rw [hout, hstream] at hb
  rcases List.mem_flatten.mp hb with ⟨l, hl, hbl⟩
  rcases List.mem_map.mp hl with ⟨c, hc, rfl⟩
  exact encodeChar_ne_zero (hmem c hc).2 b hbl

theorem C7_decoder_output_witness :
    fullStream (readMany ⟨[[0xEF, 0xBB, 0xBF, 0x41], [0x00, 0xC3]], [], 0⟩ [2, 2, 2]).2
      = [] ∧
    (readMany ⟨[[0xEF, 0xBB, 0xBF, 0x41], [0x00, 0xC3]], [], 0⟩ [2, 2, 2]).1
      = utf8Encode (([[0xEF, 0xBB, 0xBF, 0x41], [0x00, 0xC3]].map
          fun ch => stripBomNul (utf8DecodeLossy ch)).flatten) :=
  ⟨by decide,
    (C7_decoder_output [[0xEF, 0xBB, 0xBF, 0x41], [0x00, 0xC3]] [2, 2, 2] (by decide)).1⟩

/-- C6 counterexample: the claim "a read with a non-empty output buffer
returns 0 bytes if and only if the source is at end of stream" fails.
With the inner reader delivering the chunk `[0x00]` and then `[0x41]`, the
first `read` returns 0 bytes (the NUL-only chunk strips to nothing) while
the source still has bytes to deliver, as the next `read` shows. -/
theorem C6_counterexample :
    (LossyUtf8Reader.read ⟨[[0x00], [0x41]], [], 0⟩ 10).1 = [] ∧
    (⟨[[0x00], [0x41]], [], 0⟩ : LossyUtf8Reader).source ≠ [] ∧
    ((LossyUtf8Reader.read ⟨[[0x00], [0x41]], [], 0⟩ 10).2.read 10).1 = [0x41] := by
  decide

/-- C6 (amended): a `read` call with a non-empty output buffer returns 0
bytes iff there are no leftover decoded bytes and either the underlying
source is at end of stream or the next chunk decodes-and-strips to the
empty string.  In particular `read` does return a zero-length read at end
of stream, but a zero-length read does not imply end of stream: a chunk
consisting solely of BOM and NUL characters also yields one. -/
theorem C6_amended (r : LossyUtf8Reader) (outLen : Nat) (h : 0 < outLen) :
    (r.read outLen).1 = [] ↔
      (r.out_buf.length ≤ r.out_pos ∧
        (r.source = [] ∨
          ∃ chunk rest, r.source = chunk :: rest ∧ processChunk chunk = [])) := by
  unfold LossyUtf8Reader.read
  by_cases hlt : r.out_pos < r.out_buf.length
  · simp only [if_pos hlt]
    constructor
    · intro habs
      exfalso
      have h2 : (r.out_buf.drop r.out_pos).length = r.out_buf.length - r.out_pos :=
        List.length_drop _ _
      have h3 := congrArg List.length habs
      rw [List.length_take, h2] at h3
      simp at h3
      omega
    · rintro ⟨hc, _⟩
      omega
  · simp only [if_neg hlt]
    cases hs : r.source with
    | nil =>
      simp [hs, Nat.le_of_not_lt hlt]
    | cons chunk rest =>
      simp only
      constructor
      · intro htake
        refine ⟨Nat.le_of_not_lt hlt, Or.inr ⟨chunk, rest, rfl, ?_⟩⟩
        have h3 := congrArg List.length htake
        rw [List.length_take, List.length_nil] at h3
        have hoblen : (processChunk chunk).length = 0 := by omega
        exact List.length_eq_zero.mp hoblen
      · rintro ⟨-, h2 | ⟨c, cs, heq, hpc⟩⟩
        · exact absurd h2 (List.cons_ne_nil _ _)
        · injection heq with e1 e2
          subst e1
          rw [hpc]
          simp

theorem C6_amended_witness :
    ((⟨[], [1, 2], 2⟩ : LossyUtf8Reader).read 8).1 = [] ↔
      ((⟨[], [1, 2], 2⟩ : LossyUtf8Reader).out_buf.length
          ≤ (⟨[], [1, 2], 2⟩ : LossyUtf8Reader).out_pos ∧
        ((⟨[], [1, 2], 2⟩ : LossyUtf8Reader).source = [] ∨
          ∃ chunk rest,
            (⟨[], [1, 2], 2⟩ : LossyUtf8Reader).source = chunk :: rest ∧
            processChunk chunk = [])) :=
  C6_amended ⟨[], [1, 2], 2⟩ 8 (by decide)

/-! ## Epoch unit heuristic: `epoch_from_number` in `src/utils/utils.rs` -/

/-- `epoch_from_number` (utils.rs lines 124-140), with the `f64` arithmetic
modelled by exact rationals (for the claim's inputs every division is exact
in `f64` as well): magnitude-based unit inference from nanoseconds,
microseconds or milliseconds down to fractional seconds. -/
def epoch_from_number (num : ℚ) : ℚ :=
  if |num| > 10 ^ 18 then num / 10 ^ 9
  else if |num| > 10 ^ 15 then num / 10 ^ 6
  else if |num| > 10 ^ 12 then num / 10 ^ 3
  else num

/-- C8: the magnitude heuristic of `epoch_from_number` — above 1e18 divide
by 1e9, above 1e15 by 1e6, above 1e12 by 1e3, else pass through — and its
consequence that 1700000000 s, 1700000000000 ms, 1700000000000000 µs and
1700000000000000000 ns all normalize to the same fractional-seconds value
(here exactly equal, hence within 1e-6). -/
theorem C8_epoch_heuristic :
    (∀ v : ℚ,
      (10 ^ 18 < |v| → epoch_from_number v = v / 10 ^ 9) ∧
      (¬10 ^ 18 < |v| → 10 ^ 15 < |v| → epoch_from_number v = v / 10 ^ 6) ∧
      (¬10 ^ 18 < |v| → ¬10 ^ 15 < |v| → 10 ^ 12 < |v| →
        epoch_from_number v = v / 10 ^ 3) ∧
      (¬10 ^ 18 < |v| → ¬10 ^ 15 < |v| → ¬10 ^ 12 < |v| →
        epoch_from_number v = v)) ∧
    epoch_from_number 1700000000 = 1700000000 ∧
    epoch_from_number 1700000000000 = 1700000000 ∧
    epoch_from_number 1700000000000000 = 1700000000 ∧
    epoch_from_number 1700000000000000000 = 1700000000 ∧
    |epoch_from_number 1700000000000000000 - epoch_from_number 1700000000|
      ≤ 1 / 1000000 := by
  have habs : ∀ q : ℚ, 0 ≤ q → |q| = q := fun q hq => abs_of_nonneg hq
  refine ⟨fun v => ⟨?_, ?_, ?_, ?_⟩, ?_, ?_, ?_, ?_, ?_⟩
  · intro h1
    simp [epoch_from_number, h1]
  · intro h1 h2
    simp [epoch_from_number, h1, h2]
  · intro h1 h2 h3
    simp [epoch_from_number, h1, h2, h3]
  · intro h1 h2 h3
    simp [epoch_from_number, h1, h2, h3]
  · unfold epoch_from_number
    rw [habs 1700000000 (by norm_num)]
    norm_num
  · unfold epoch_from_number
    rw [habs 1700000000000 (by norm_num)]
    norm_num
  · unfold epoch_from_number
    rw [habs 1700000000000000 (by norm_num)]
    norm_num
  · unfold epoch_from_number
    rw [habs 1700000000000000000 (by norm_num)]
    norm_num
  · unfold epoch_from_number
    rw [habs 1700000000000000000 (by norm_num), habs 1700000000 (by norm_num)]
    norm_num

theorem C8_epoch_heuristic_witness :
    epoch_from_number (2 * 10 ^ 18) = 2 * 10 ^ 18 / 10 ^ 9 :=
  (C8_epoch_heuristic.1 (2 * 10 ^ 18)).1
    (by rw [abs_of_nonneg (by norm_num : (0:ℚ) ≤ 2 * 10 ^ 18)]; norm_num)

/-! ## Structured-mode payload preparation: `batch_event` lines 197-214 -/

/-- The `serde_json::Value` tree, with numbers as exact rationals. -/
inductive Json
  | null
  | bool (b : Bool)
  | num (q : ℚ)
  | str (s : String)
  | arr (xs : List Json)
  | obj (kvs : List (String × Json))

/-- `Value::get(key)`: a key lookup succeeds only on objects. -/
def Json.get (v : Json) (k : String) : Option Json :=
  match v with
  | .obj kvs => alistGet kvs k
  | _ => none

/-- `Value::is_null`. -/
def Json.isNull : Json → Bool
  | .null => true
  | _ => false

/-- Is the value a JSON object? (`Value::is_object`.) -/
def Json.isObj : Json → Bool
  | .obj _ => true
  | _ => false

/-- The string-key index-assignment `payload[key] = x` of `serde_json`:
on an object it inserts or overwrites the key; on `null` the value is
first silently replaced by an empty object; on every other variant the
`IndexMut` implementation panics, modelled as `none`. -/
def Json.setKey (v : Json) (k : String) (x : Json) : Option Json :=
  match v with
  | .null => some (.obj (alistSet [] k x))
  | .obj kvs => some (.obj (alistSet kvs k x))
  | _ => none

/-- The structured-mode (`input_type == "json"`) preparation of
`batch_event` (http_event_collector.rs lines 197-214): assign a default
`host` when the key is absent, assign the current time when `time` is
absent, then optionally drop null-valued fields inside the `event`
object.  `none` models a panic of the underlying index-assignment. -/
def batchEventJsonPrep (host : String) (now : ℚ) (pop_null_fields : Bool)
    (payload : Json) : Option Json :=
  let step1 :=
    if (payload.get "host").isSome then some payload
    else payload.setKey "host" (.str host)
  match step1 with
  | none => none
  | some p1 =>
    let step2 :=
      if (p1.get "time").isSome then some p1
      else p1.setKey "time" (.num now)
    match step2 with
    | none => none
    | some p2 =>
      let p3 :=
        if pop_null_fields then
          match p2.get "event" with
          | some (.obj kvs) =>
            match p2 with
            | .obj m =>
              Json.obj (alistSet m "event" (.obj (kvs.filter fun kv => !kv.2.isNull)))
            | _ => p2
          | _ => p2
        else p2
      some p3

theorem setKey_obj (kvs : List (String × Json)) (k : String) (x : Json) :
    (Json.obj kvs).setKey k x = some (.obj (alistSet kvs k x)) := rfl

/-- C9: in structured mode, the auto-population of `host` and `time`
panics exactly on payloads that are neither a JSON object nor JSON null
(strings, numbers, booleans and arrays have no `host` key, so the
string-key index-assignment panics); objects are prepared normally and
`null` is silently promoted to an object. -/
theorem C9_structured_panics (host : String) (now : ℚ) (pop : Bool)
    (payload : Json) :
    batchEventJsonPrep host now pop payload = none ↔
      (payload.isObj = false ∧ payload.isNull = false) := by
  cases payload with
  | null =>
    simp +decide [batchEventJsonPrep, Json.get, Json.setKey, Json.isObj,
      Json.isNull, alistGet, alistSet]
  | bool b => simp [batchEventJsonPrep, Json.get, Json.setKey, Json.isObj, Json.isNull]
  | num q => simp [batchEventJsonPrep, Json.get, Json.setKey, Json.isObj, Json.isNull]
  | str s => simp [batchEventJsonPrep, Json.get, Json.setKey, Json.isObj, Json.isNull]
  | arr xs => simp [batchEventJsonPrep, Json.get, Json.setKey, Json.isObj, Json.isNull]
  | obj kvs =>
    simp only [Json.isObj, Json.isNull, Bool.true_eq_false, false_and, iff_false]
    intro habs
    unfold batchEventJsonPrep at habs
    by_cases hh : ((Json.obj kvs).get "host").isSome
    · simp only [hh, if_pos] at habs
      by_cases ht : ((Json.obj kvs).get "time").isSome
      · simp [ht] at habs
      · simp [ht, setKey_obj] at habs
    · simp only [hh, if_neg, Bool.false_eq_true, setKey_obj] at habs
      by_cases ht : ((Json.obj (alistSet kvs "host" (.str host))).get "time").isSome
      · simp [ht] at habs
      · simp [ht, setKey_obj] at habs

theorem C9_structured_panics_witness :
    batchEventJsonPrep "defaulthost" 0 false (Json.str "not an object") = none :=
  (C9_structured_panics "defaulthost" 0 false (Json.str "not an object")).mpr
    ⟨rfl, rfl⟩
